import Mathlib

set_option maxHeartbeats 1000000

/-!
Shallow embedding of `src/main.py`: a single-user library inventory tool
persisting one SQLite table `books (id, title, author, publisher, isbn,
pub_year, quantity)` with seven repository operations
(`add_book`, `get_all_books`, `search_books`, `update_book_info`,
`borrow_book`, `return_book`, `delete_book`).

Modelling choices, each traceable to the source:
* A table row is a `Book`; the table is the list `Store.books` in rowid
  (insertion) order, which is the order `SELECT` without `ORDER BY` returns.
* `id INTEGER PRIMARY KEY AUTOINCREMENT` is modelled by `Store.nextId`,
  bumped only on a successful insert.
* `isbn TEXT UNIQUE NOT NULL` is a store-level constraint: an `INSERT` with a
  duplicate isbn raises `IntegrityError`, which `add_book` catches and turns
  into `False` (src/main.py lines 77-87).  States actually produced by the
  store therefore have pairwise-distinct isbns; `WF` expresses that.
* `title`/`author` are `TEXT NOT NULL`: in the embedding they are `String`s,
  always present; note SQLite's NOT NULL does not rule out the empty string.
* `publisher` / `pub_year` are nullable in the schema but every caller passes
  concrete values, so they are embedded as plain `String` / `Int`.
* `quantity INTEGER` is an `Int`: the schema imposes no range constraint.
* SQLite's default `LIKE` (used by `search_books` with pattern
  `%term%`, lines 127-132) matches `%` against any run of characters, `_`
  against one character, and compares letters ASCII-case-insensitively;
  `likeMatch` implements exactly that (Lean's `Char.toLower` is ASCII-only,
  matching SQLite's default case folding).
* Each operation returns its Python result paired with the post-state;
  `UPDATE`/`DELETE ... WHERE isbn = ?` act on every matching row and the
  Python code tests `cursor.rowcount > 0`, embedded via `List.any`.
-/

/-- A row of the `books` table (src/main.py lines 20-28). -/
structure Book where
  id : Nat
  title : String
  author : String
  publisher : String
  isbn : String
  pub_year : Int
  quantity : Int
deriving DecidableEq

/-- The persistent store: the `books` table in rowid order plus the
AUTOINCREMENT counter for `id`. -/
structure Store where
  books : List Book
  nextId : Nat
deriving DecidableEq

/-- `create_database` (src/main.py lines 7-42): fresh empty table,
AUTOINCREMENT counter starting at 1. -/
def create_database : Store := ⟨[], 1⟩

/-- Store-enforced invariant: `isbn TEXT UNIQUE` makes isbns pairwise
distinct in every state the store can actually hold. -/
def WF (st : Store) : Prop := (st.books.map Book.isbn).Nodup

instance (st : Store) : Decidable (WF st) := by unfold WF; infer_instance

/-- All suffixes of a list, longest first, ending with `[]`. -/
def suffixes : List Char → List (List Char)
  | [] => [[]]
  | c :: s => (c :: s) :: suffixes s

/-- SQLite's default `LIKE` matching: `%` matches any run of characters,
`_` matches exactly one character, and ordinary characters compare
ASCII-case-insensitively (`Char.toLower` folds only A-Z, as SQLite does
by default). -/
def likeMatch : List Char → List Char → Bool
  | [], s => s.isEmpty
  | pc :: p, s =>
    if pc = '%' then (suffixes s).any (fun t => likeMatch p t)
    else if pc = '_' then
      match s with
      | [] => false
      | _ :: t => likeMatch p t
    else
      match s with
      | [] => false
      | c :: t => (pc.toLower == c.toLower) && likeMatch p t

/-- The pattern `f"%{search_term}%"` built at src/main.py line 127. -/
def likePat (term : List Char) : List Char := '%' :: (term ++ ['%'])

/-- `add_book` (src/main.py lines 60-93): one `INSERT`; a duplicate isbn
violates the UNIQUE constraint, the raised `IntegrityError` is caught and
`False` returned with the table untouched; otherwise the row is appended
with the next AUTOINCREMENT id and `True` returned. -/
def add_book (title author publisher isbn : String) (pub_year quantity : Int)
    (st : Store) : Bool × Store :=
  if st.books.any (fun b => b.isbn == isbn) then
    (false, st)
  else
    (true, ⟨st.books ++ [⟨st.nextId, title, author, publisher, isbn, pub_year, quantity⟩],
            st.nextId + 1⟩)

/-- `get_all_books` (src/main.py lines 95-113): `SELECT *` in rowid order. -/
def get_all_books (st : Store) : List Book := st.books

/-- The row predicate of `search_books`:
`title LIKE ? OR author LIKE ? OR isbn LIKE ?` with pattern `%term%`. -/
def bookMatches (term : String) (b : Book) : Bool :=
  likeMatch (likePat term.data) b.title.data ||
    likeMatch (likePat term.data) b.author.data ||
      likeMatch (likePat term.data) b.isbn.data

/-- `search_books` (src/main.py lines 115-140). -/
def search_books (term : String) (st : Store) : List Book :=
  st.books.filter (bookMatches term)

/-- `update_book_info` (src/main.py lines 142-174): one
`UPDATE books SET title, author, publisher, pub_year WHERE isbn = ?`;
returns `cursor.rowcount > 0`. -/
def update_book_info (isbn new_title new_author new_publisher : String)
    (new_pub_year : Int) (st : Store) : Bool × Store :=
  (st.books.any (fun b => b.isbn == isbn),
   ⟨st.books.map (fun b =>
      if b.isbn == isbn then
        { b with title := new_title, author := new_author,
                 publisher := new_publisher, pub_year := new_pub_year }
      else b),
    st.nextId⟩)

/-- `borrow_book` (src/main.py lines 176-209): `SELECT quantity WHERE isbn`
(`fetchone` = first matching row); if found and `> 0`, one
`UPDATE ... SET quantity = quantity - 1 WHERE isbn = ?` and `True`;
otherwise `False` with the table untouched. -/
def borrow_book (isbn : String) (st : Store) : Bool × Store :=
  match st.books.find? (fun b => b.isbn == isbn) with
  | some b =>
    if 0 < b.quantity then
      (true, ⟨st.books.map (fun r =>
                if r.isbn == isbn then { r with quantity := r.quantity - 1 } else r),
              st.nextId⟩)
    else
      (false, st)
  | none => (false, st)

/-- `return_book` (src/main.py lines 211-235): one unconditional
`UPDATE ... SET quantity = quantity + 1 WHERE isbn = ?`; returns
`cursor.rowcount > 0`. -/
def return_book (isbn : String) (st : Store) : Bool × Store :=
  (st.books.any (fun b => b.isbn == isbn),
   ⟨st.books.map (fun r =>
      if r.isbn == isbn then { r with quantity := r.quantity + 1 } else r),
    st.nextId⟩)

/-- `delete_book` (src/main.py lines 237-261): one
`DELETE FROM books WHERE isbn = ?`; returns `cursor.rowcount > 0`. -/
def delete_book (isbn : String) (st : Store) : Bool × Store :=
  (st.books.any (fun b => b.isbn == isbn),
   ⟨st.books.filter (fun b => !(b.isbn == isbn)), st.nextId⟩)

/-- One repository call, as dispatched by the CLI menu (src/main.py
lines 279-368); results are discarded, only the store evolves. -/
inductive Op where
  | add (title author publisher isbn : String) (pub_year quantity : Int)
  | listAll
  | searchKw (term : String)
  | updateInfo (isbn new_title new_author new_publisher : String) (new_pub_year : Int)
  | borrow (isbn : String)
  | giveBack (isbn : String)
  | remove (isbn : String)
deriving DecidableEq

/-- State transition of one repository call. -/
def applyOp (st : Store) : Op → Store
  | .add t a p i y q => (add_book t a p i y q st).2
  | .listAll => st
  | .searchKw _ => st
  | .updateInfo i t a p y => (update_book_info i t a p y st).2
  | .borrow i => (borrow_book i st).2
  | .giveBack i => (return_book i st).2
  | .remove i => (delete_book i st).2

/-- Run a sequence of repository calls from the freshly created store. -/
def runOps (ops : List Op) : Store := ops.foldl applyOp create_database

/-- Precondition of claim C2: every `add` in the sequence carries a
non-negative quantity. -/
def addNonneg : Op → Bool
  | .add _ _ _ _ _ q => decide (0 ≤ q)
  | _ => true

/-- Precondition for the amended C9: every `add` and `update_fields` call
supplies non-empty title and author. -/
def namesNonempty : Op → Bool
  | .add t a _ _ _ _ => !(t == "") && !(a == "")
  | .updateInfo _ t a _ _ => !(t == "") && !(a == "")
  | _ => true

/-- Case-SENSITIVE prefix test on character lists (the comparison the spec's
search sentence asserts, stated independently of `likeMatch`). -/
def csStarts : List Char → List Char → Bool
  | [], _ => true
  | _ :: _, [] => false
  | a :: as, b :: bs => (a == b) && csStarts as bs

/-- Case-SENSITIVE substring test: `csSub needle hay` holds when `needle`
occurs contiguously in `hay` with exact character equality. -/
def csSub (needle : List Char) : List Char → Bool
  | [] => csStarts needle []
  | c :: s => csStarts needle (c :: s) || csSub needle s

/-- ASCII-case-insensitive prefix test, stated independently of `likeMatch`. -/
def ciStarts : List Char → List Char → Bool
  | [], _ => true
  | _ :: _, [] => false
  | a :: as, b :: bs => (a.toLower == b.toLower) && ciStarts as bs

/-- ASCII-case-insensitive substring test. -/
def ciSub (needle : List Char) : List Char → Bool
  | [] => ciStarts needle []
  | c :: s => ciStarts needle (c :: s) || ciSub needle s

example : likeMatch (likePat "tolkien".data) "J.R.R. Tolkien".data = true := by decide
example : likeMatch (likePat "a%b".data) "aXXb".data = true := by decide
example : csSub "tolkien".data "J.R.R. Tolkien".data = false := by decide
example : ciSub "tolkien".data "J.R.R. Tolkien".data = true := by decide

/-! ## LIKE-matching lemmas -/

theorem nil_mem_suffixes (s : List Char) : [] ∈ suffixes s := by
  induction s with
  | nil => simp [suffixes]
  | cons c s ih => simp [suffixes]; exact ih

theorem likeMatch_percent_only (s : List Char) : likeMatch ['%'] s = true := by
  have h : ([] : List Char) ∈ suffixes s := nil_mem_suffixes s
  simp only [likeMatch, if_true, List.any_eq_true]
  refine ⟨[], h, rfl⟩

/-- A wildcard-free pattern followed by `%` matches a string exactly when the
pattern is an ASCII-case-insensitive prefix of the string. -/
theorem likeMatch_wcfree_percent (kw : List Char)
    (hk : ∀ c ∈ kw, c ≠ '%' ∧ c ≠ '_') (s : List Char) :
    likeMatch (kw ++ ['%']) s = ciStarts kw s := by
  induction kw generalizing s with
  | nil => simp [ciStarts, likeMatch_percent_only]
  | cons c kw ih =>
    obtain ⟨hc1, hc2⟩ := hk c (List.mem_cons_self c kw)
    have hk' : ∀ d ∈ kw, d ≠ '%' ∧ d ≠ '_' := fun d hd => hk d (List.mem_cons_of_mem c hd)
    cases s with
    | nil => simp [likeMatch, ciStarts, hc1, hc2]
    | cons d t => simp [likeMatch, ciStarts, hc1, hc2, ih hk' t]

theorem ciSub_eq_any (kw s : List Char) :
    ciSub kw s = (suffixes s).any (fun t => ciStarts kw t) := by
  induction s with
  | nil => simp [ciSub, suffixes]
  | cons c s ih => simp [ciSub, suffixes, ih]

/-- For a keyword with no LIKE wildcards, the pattern `%kw%` matches a string
exactly when `kw` occurs in it as an ASCII-case-insensitive substring. -/
theorem likeMatch_likePat (kw : List Char)
    (hk : ∀ c ∈ kw, c ≠ '%' ∧ c ≠ '_') (s : List Char) :
    likeMatch (likePat kw) s = ciSub kw s := by
  have hfun : (fun t => likeMatch (kw ++ ['%']) t) = (fun t => ciStarts kw t) :=
    funext fun t => likeMatch_wcfree_percent kw hk t
  have hstep : likeMatch ('%' :: (kw ++ ['%'])) s
      = (suffixes s).any (fun t => likeMatch (kw ++ ['%']) t) := by
    simp [likeMatch]
  rw [ciSub_eq_any]
  show likeMatch ('%' :: (kw ++ ['%'])) s = _
  rw [hstep, hfun]

/-! ## C6: search semantics -/

/-- A concrete row used to exercise `search_books`. -/
def tolBook : Book :=
  ⟨1, "The Hobbit", "J.R.R. Tolkien", "Allen and Unwin", "9780048231887", 1937, 3⟩

/-- A concrete store holding `tolBook`. -/
def stT : Store := ⟨[tolBook], 2⟩

/-- C6 counterexample: the claim says `search` keeps exactly the rows whose
title, author, or isbn contains the keyword as a CASE-SENSITIVE substring,
but SQLite's default LIKE is ASCII-case-insensitive: searching "tolkien"
returns the book whose author is "J.R.R. Tolkien" even though no field
contains "tolkien" with that capitalisation. -/
theorem search_books_case_sensitive_cex :
    ¬ (search_books "tolkien" stT = stT.books.filter (fun b =>
        csSub "tolkien".data b.title.data || csSub "tolkien".data b.author.data ||
          csSub "tolkien".data b.isbn.data)) := by decide

/-- C6 (amended): for every keyword containing no LIKE wildcard (`%` or `_`),
`search_books` returns exactly the rows whose title, author, or isbn contains
the keyword as an ASCII-case-INSENSITIVE substring (SQLite's default LIKE
folding); keywords containing wildcards follow the LIKE pattern semantics
instead of literal matching. -/
theorem search_books_ci_substring (kw : String)
    (hk : ∀ c ∈ kw.data, c ≠ '%' ∧ c ≠ '_') (st : Store) :
    search_books kw st = st.books.filter (fun b =>
      ciSub kw.data b.title.data || ciSub kw.data b.author.data ||
        ciSub kw.data b.isbn.data) := by
  unfold search_books
  refine List.filter_congr fun b _ => ?_
  simp only [bookMatches, likeMatch_likePat kw.data hk]

/-- Witness for C6's amended theorem at the keyword "Tolkien" and store `stT`. -/
theorem search_books_ci_substring_witness :
    (∀ c ∈ "Tolkien".data, c ≠ '%' ∧ c ≠ '_') ∧
    search_books "Tolkien" stT = stT.books.filter (fun b =>
      ciSub "Tolkien".data b.title.data || ciSub "Tolkien".data b.author.data ||
        ciSub "Tolkien".data b.isbn.data) :=
  ⟨by decide, search_books_ci_substring "Tolkien" (by decide) stT⟩

/-! ## C1: borrow -/

/-- C1: on a store with distinct isbns (as the UNIQUE constraint guarantees),
`borrow_book` returns true exactly when a row with that isbn exists with
strictly positive quantity; on success only that row changes, its quantity
decremented by exactly 1; on failure the store is unchanged. -/
theorem borrow_book_spec (st : Store) (hwf : WF st) (isbn : String) :
    ((borrow_book isbn st).1 = true ↔ ∃ b ∈ st.books, b.isbn = isbn ∧ 0 < b.quantity)
    ∧ ((borrow_book isbn st).1 = true →
        (borrow_book isbn st).2.nextId = st.nextId ∧
        ∀ i : Nat, (borrow_book isbn st).2.books[i]? =
          (st.books[i]?).map (fun b =>
            if b.isbn = isbn then { b with quantity := b.quantity - 1 } else b))
    ∧ ((borrow_book isbn st).1 = false → (borrow_book isbn st).2 = st) := by
  rcases hf : st.books.find? (fun b => b.isbn == isbn) with _ | b
  · have hno : ∀ x ∈ st.books, ¬ ((x.isbn == isbn) = true) := List.find?_eq_none.mp hf
    have hres : borrow_book isbn st = (false, st) := by
      simp only [borrow_book, hf]
    rw [hres]
    refine ⟨⟨fun h => by simp at h, fun h => ?_⟩,
            fun h => by simp at h, fun _ => rfl⟩
    obtain ⟨b, hb, hbi, _⟩ := h
    exact ((hno b hb) (by simp [hbi])).elim
  · have hb_mem : b ∈ st.books := List.mem_of_find?_eq_some hf
    have hb_eq : b.isbn = isbn := by simpa using List.find?_some hf
    by_cases hq : 0 < b.quantity
    · have hres : borrow_book isbn st =
          (true, ⟨st.books.map (fun r =>
                    if r.isbn == isbn then { r with quantity := r.quantity - 1 } else r),
                  st.nextId⟩) := by
        simp only [borrow_book, hf, if_pos hq]
      rw [hres]
      refine ⟨⟨fun _ => ⟨b, hb_mem, hb_eq, hq⟩, fun _ => rfl⟩,
              fun _ => ⟨rfl, fun i => ?_⟩, fun h => by simp at h⟩
      show (st.books.map _)[i]? = _
      rw [List.getElem?_map]
      cases st.books[i]? with
      | none => rfl
      | some r =>
        by_cases hr : r.isbn = isbn
        · simp [hr]
        · simp [hr]
    · have hres : borrow_book isbn st = (false, st) := by
        simp only [borrow_book, hf, if_neg hq]
      rw [hres]
      refine ⟨⟨fun h => by simp at h, fun h => ?_⟩,
              fun h => by simp at h, fun _ => rfl⟩
      obtain ⟨b', hb', hbi', hq'⟩ := h
      have hbb : b' = b :=
        List.inj_on_of_nodup_map hwf hb' hb_mem (by rw [hbi', hb_eq])
      exact absurd (hbb ▸ hq') hq

/-- A concrete one-row store used to instantiate the borrow theorem. -/
def stW : Store := ⟨[⟨1, "T", "A", "P", "I1", 1990, 1⟩], 2⟩

/-- Witness for C1's theorem at store `stW` and isbn "I1". -/
theorem borrow_book_spec_witness :
    WF stW ∧
    (((borrow_book "I1" stW).1 = true ↔ ∃ b ∈ stW.books, b.isbn = "I1" ∧ 0 < b.quantity)
    ∧ ((borrow_book "I1" stW).1 = true →
        (borrow_book "I1" stW).2.nextId = stW.nextId ∧
        ∀ i : Nat, (borrow_book "I1" stW).2.books[i]? =
          (stW.books[i]?).map (fun b =>
            if b.isbn = "I1" then { b with quantity := b.quantity - 1 } else b))
    ∧ ((borrow_book "I1" stW).1 = false → (borrow_book "I1" stW).2 = stW)) :=
  ⟨by decide, borrow_book_spec stW (by decide) "I1"⟩

/-! ## C3: duplicate add -/

/-- C3: adding a book whose isbn is already present fails (the UNIQUE
violation is caught and `False` returned) and leaves the store exactly as it
was: the first book's row survives untouched and no row is inserted. -/
theorem add_book_duplicate (st : Store) (t a p isbn : String) (y q : Int)
    (h : ∃ b ∈ st.books, b.isbn = isbn) :
    add_book t a p isbn y q st = (false, st) := by
  obtain ⟨b, hb, hbi⟩ := h
  have hany : st.books.any (fun x => x.isbn == isbn) = true :=
    List.any_eq_true.mpr ⟨b, hb, by simp [hbi]⟩
  simp [add_book, hany]

/-- Witness for C3's theorem: re-adding isbn "9780048231887" to `stT` fails. -/
theorem add_book_duplicate_witness :
    (∃ b ∈ stT.books, b.isbn = "9780048231887") ∧
    add_book "X" "Y" "Z" "9780048231887" 2000 5 stT = (false, stT) :=
  ⟨by decide, add_book_duplicate stT "X" "Y" "Z" "9780048231887" 2000 5 (by decide)⟩

/-! ## C4: update_fields -/

/-- C4: `update_book_info` overwrites exactly title, author, publisher and
pub_year of every row matching the isbn (keeping id, isbn and quantity) and
leaves all other rows untouched; it returns true exactly when some row
matches, and when none does the store is unchanged. -/
theorem update_book_info_spec (st : Store) (isbn t a p : String) (y : Int) :
    ((update_book_info isbn t a p y st).1 = true ↔ ∃ b ∈ st.books, b.isbn = isbn)
    ∧ (update_book_info isbn t a p y st).2.nextId = st.nextId
    ∧ (∀ i : Nat, (update_book_info isbn t a p y st).2.books[i]? =
        (st.books[i]?).map (fun b =>
          if b.isbn = isbn then
            { b with title := t, author := a, publisher := p, pub_year := y }
          else b))
    ∧ ((update_book_info isbn t a p y st).1 = false →
        (update_book_info isbn t a p y st).2 = st) := by
  refine ⟨?_, rfl, fun i => ?_, fun hfalse => ?_⟩
  · show st.books.any (fun b => b.isbn == isbn) = true ↔ _
    simp [List.any_eq_true]
  · show (st.books.map _)[i]? = _
    rw [List.getElem?_map]
    cases st.books[i]? with
    | none => rfl
    | some r =>
      by_cases hr : r.isbn = isbn
      · simp [hr]
      · simp [hr]
  · have h1 : st.books.any (fun b => b.isbn == isbn) = false := hfalse
    have hno : ∀ x ∈ st.books, ¬ x.isbn = isbn := fun x hx => by
      simpa using List.any_eq_false.mp h1 x hx
    show (⟨st.books.map _, st.nextId⟩ : Store) = st
    have hpt : ∀ b ∈ st.books,
        (if b.isbn == isbn then
          { b with title := t, author := a, publisher := p, pub_year := y }
        else b) = b := fun b hb => by simp [hno b hb]
    have hmap : st.books.map (fun b =>
        if b.isbn == isbn then
          { b with title := t, author := a, publisher := p, pub_year := y }
        else b) = st.books := by
      rw [List.map_congr_left hpt]
      exact List.map_id' st.books
    rw [hmap]

/-! ## C5: return -/

/-- C5: `return_book` increments the matching row's quantity by exactly 1
whatever its current value (0 included, no upper bound) and returns true;
with no matching row it returns false and the store is unchanged. -/
theorem return_book_spec (st : Store) (isbn : String) :
    ((return_book isbn st).1 = true ↔ ∃ b ∈ st.books, b.isbn = isbn)
    ∧ (return_book isbn st).2.nextId = st.nextId
    ∧ (∀ i : Nat, (return_book isbn st).2.books[i]? =
        (st.books[i]?).map (fun b =>
          if b.isbn = isbn then { b with quantity := b.quantity + 1 } else b))
    ∧ ((return_book isbn st).1 = false → (return_book isbn st).2 = st) := by
  refine ⟨?_, rfl, fun i => ?_, fun hfalse => ?_⟩
  · show st.books.any (fun b => b.isbn == isbn) = true ↔ _
    simp [List.any_eq_true]
  · show (st.books.map _)[i]? = _
    rw [List.getElem?_map]
    cases st.books[i]? with
    | none => rfl
    | some r =>
      by_cases hr : r.isbn = isbn
      · simp [hr]
      · simp [hr]
  · have h1 : st.books.any (fun b => b.isbn == isbn) = false := hfalse
    have hno : ∀ x ∈ st.books, ¬ x.isbn = isbn := fun x hx => by
      simpa using List.any_eq_false.mp h1 x hx
    show (⟨st.books.map _, st.nextId⟩ : Store) = st
    have hpt : ∀ b ∈ st.books,
        (if b.isbn == isbn then { b with quantity := b.quantity + 1 } else b) = b :=
      fun b hb => by simp [hno b hb]
    have hmap : st.books.map (fun r =>
        if r.isbn == isbn then { r with quantity := r.quantity + 1 } else r)
        = st.books := by
      rw [List.map_congr_left hpt]
      exact List.map_id' st.books
    rw [hmap]

/-! ## C7: delete -/

/-- C7: `delete_book` removes exactly the rows matching the isbn and returns
true exactly when one existed; afterwards neither `get_all_books` nor any
`search_books` result contains a book with that isbn; deleting a missing isbn
returns false and alters nothing. -/
theorem delete_book_spec (st : Store) (isbn : String) :
    ((delete_book isbn st).1 = true ↔ ∃ b ∈ st.books, b.isbn = isbn)
    ∧ (∀ b : Book, b ∈ (delete_book isbn st).2.books ↔ b ∈ st.books ∧ b.isbn ≠ isbn)
    ∧ (∀ b ∈ get_all_books (delete_book isbn st).2, b.isbn ≠ isbn)
    ∧ (∀ kw : String, ∀ b ∈ search_books kw (delete_book isbn st).2, b.isbn ≠ isbn)
    ∧ ((delete_book isbn st).1 = false → (delete_book isbn st).2 = st) := by
  refine ⟨?_, fun b => ?_, fun b hb => ?_, fun kw b hb => ?_, fun hfalse => ?_⟩
  · show st.books.any (fun b => b.isbn == isbn) = true ↔ _
    simp [List.any_eq_true]
  · show b ∈ st.books.filter _ ↔ _
    simp [List.mem_filter]
  · have hb2 : b ∈ st.books.filter (fun x => !(x.isbn == isbn)) := hb
    simpa using (List.mem_filter.mp hb2).2
  · have hb2 : b ∈ (st.books.filter (fun x => !(x.isbn == isbn))).filter (bookMatches kw) := hb
    simpa using (List.mem_filter.mp (List.mem_of_mem_filter hb2)).2
  · have h1 : st.books.any (fun b => b.isbn == isbn) = false := hfalse
    have hno : ∀ x ∈ st.books, ¬ x.isbn = isbn := fun x hx => by
      simpa using List.any_eq_false.mp h1 x hx
    show (⟨st.books.filter _, st.nextId⟩ : Store) = st
    have hfil : st.books.filter (fun x => !(x.isbn == isbn)) = st.books :=
      List.filter_eq_self.mpr (fun x hx => by simp [hno x hx])
    rw [hfil]

/-! ## C8: add then list_all -/

/-- C8: adding a book under a fresh isbn succeeds and `get_all_books` then
returns the previous listing with exactly that book, carrying the supplied
fields, appended at the end (insertion order). -/
theorem add_book_then_list (st : Store) (t a p isbn : String) (y q : Int)
    (h : ∀ b ∈ st.books, b.isbn ≠ isbn) :
    (add_book t a p isbn y q st).1 = true ∧
    get_all_books (add_book t a p isbn y q st).2 =
      get_all_books st ++ [⟨st.nextId, t, a, p, isbn, y, q⟩] := by
  have hany : st.books.any (fun b => b.isbn == isbn) = false :=
    List.any_eq_false.mpr fun b hb => by simp [h b hb]
  have hres : add_book t a p isbn y q st =
      (true, ⟨st.books ++ [⟨st.nextId, t, a, p, isbn, y, q⟩], st.nextId + 1⟩) := by
    simp [add_book, hany]
  rw [hres]
  exact ⟨rfl, rfl⟩

/-- Witness for C8's theorem: adding isbn "1234" to `stT`, which holds only
isbn "9780048231887". -/
theorem add_book_then_list_witness :
    (∀ b ∈ stT.books, b.isbn ≠ "1234") ∧
    ((add_book "New" "Auth" "Pub" "1234" 2001 4 stT).1 = true ∧
     get_all_books (add_book "New" "Auth" "Pub" "1234" 2001 4 stT).2 =
       get_all_books stT ++ [⟨stT.nextId, "New", "Auth", "Pub", "1234", 2001, 4⟩]) :=
  ⟨by decide, add_book_then_list stT "New" "Auth" "Pub" "1234" 2001 4 (by decide)⟩

/-! ## C10: no range validation on add -/

/-- C10: `add_book` performs no range validation: inserting quantity -1 under
a fresh isbn succeeds and the stored row carries quantity -1, below zero,
without any operation ever decrementing it. -/
theorem add_book_negative_quantity :
    (add_book "Title" "Author" "Pub" "1111" 2020 (-1) create_database).1 = true ∧
    (add_book "Title" "Author" "Pub" "1111" 2020 (-1) create_database).2.books =
      [⟨1, "Title", "Author", "Pub", "1111", 2020, -1⟩] ∧
    ∀ b ∈ (add_book "Title" "Author" "Pub" "1111" 2020 (-1) create_database).2.books,
      b.quantity < 0 := by decide

/-! ## C2: reachable states never hold negative stock -/

/-- Combined store invariant: distinct isbns (the UNIQUE constraint) and
non-negative quantities; distinctness is needed because the `UPDATE` inside
`borrow_book` touches every row matching the isbn while only the first
matching row's quantity was checked. -/
def InvQty (st : Store) : Prop :=
  (st.books.map Book.isbn).Nodup ∧ ∀ b ∈ st.books, 0 ≤ b.quantity

/-- A row transformer preserving isbns preserves distinctness of the isbn
column. -/
theorem nodup_map_isbn_of_map (bs : List Book) (f : Book → Book)
    (hf : ∀ b, (f b).isbn = b.isbn) (h : (bs.map Book.isbn).Nodup) :
    ((bs.map f).map Book.isbn).Nodup := by
  rw [List.map_map]
  have hpt : ∀ b ∈ bs, (Book.isbn ∘ f) b = Book.isbn b := fun b _ => hf b
  rw [List.map_congr_left hpt]
  exact h

theorem applyOp_invQty (st : Store) (op : Op) (h : InvQty st)
    (hop : addNonneg op = true) : InvQty (applyOp st op) := by
  obtain ⟨hnd, hq⟩ := h
  cases op with
  | add t a p i y q =>
    show InvQty (add_book t a p i y q st).2
    by_cases hdup : st.books.any (fun b => b.isbn == i) = true
    · have hres : add_book t a p i y q st = (false, st) := by simp [add_book, hdup]
      rw [hres]; exact ⟨hnd, hq⟩
    · have hdup' : st.books.any (fun b => b.isbn == i) = false := by
        cases hcase : st.books.any (fun b => b.isbn == i) with
        | false => rfl
        | true => exact absurd hcase hdup
      have hfresh : ∀ b ∈ st.books, ¬ b.isbn = i := fun b hb => by
        simpa using List.any_eq_false.mp hdup' b hb
      have hres : add_book t a p i y q st =
          (true, ⟨st.books ++ [⟨st.nextId, t, a, p, i, y, q⟩], st.nextId + 1⟩) := by
        simp [add_book, hdup']
      rw [hres]
      constructor
      · show ((st.books ++ [(⟨st.nextId, t, a, p, i, y, q⟩ : Book)]).map Book.isbn).Nodup
        simp only [List.map_append, List.map_cons, List.map_nil, List.nodup_append]
        refine ⟨hnd, List.nodup_singleton _, ?_⟩
        rw [List.disjoint_singleton]
        intro hmem
        obtain ⟨b, hb, hbi⟩ := List.mem_map.mp hmem
        exact hfresh b hb hbi
      · intro b hb
        rcases List.mem_append.mp hb with hb1 | hb1
        · exact hq b hb1
        · have hbeq : b = ⟨st.nextId, t, a, p, i, y, q⟩ := by simpa using hb1
          subst hbeq
          exact of_decide_eq_true hop
  | listAll => exact ⟨hnd, hq⟩
  | searchKw kw => exact ⟨hnd, hq⟩
  | updateInfo i t a p y =>
    show InvQty (update_book_info i t a p y st).2
    constructor
    · refine nodup_map_isbn_of_map st.books _ (fun b => ?_) hnd
      by_cases hb : (b.isbn == i) = true
      · simp [hb]
      · simp [hb]
    · intro b hb
      obtain ⟨r, hr, hrb⟩ := List.mem_map.mp hb
      by_cases hri : (r.isbn == i) = true
      · rw [← hrb]; simp [hri]; exact hq r hr
      · rw [← hrb]; simp [hri]; exact hq r hr
  | borrow i =>
    show InvQty (borrow_book i st).2
    rcases hf : st.books.find? (fun b => b.isbn == i) with _ | b0
    · have hres : borrow_book i st = (false, st) := by simp only [borrow_book, hf]
      rw [hres]; exact ⟨hnd, hq⟩
    · by_cases hq0 : 0 < b0.quantity
      · have hres : borrow_book i st =
            (true, ⟨st.books.map (fun r =>
                      if r.isbn == i then { r with quantity := r.quantity - 1 } else r),
                    st.nextId⟩) := by
          simp only [borrow_book, hf, if_pos hq0]
        rw [hres]
        have hb0mem : b0 ∈ st.books := List.mem_of_find?_eq_some hf
        have hb0i : b0.isbn = i := by simpa using List.find?_some hf
        constructor
        · refine nodup_map_isbn_of_map st.books _ (fun b => ?_) hnd
          by_cases hb : (b.isbn == i) = true
          · simp [hb]
          · simp [hb]
        · intro b hb
          obtain ⟨r, hr, hrb⟩ := List.mem_map.mp hb
          by_cases hri : (r.isbn == i) = true
          · have hreq : r = b0 :=
              List.inj_on_of_nodup_map hnd hr hb0mem
                (by rw [(by simpa using hri : r.isbn = i), hb0i])
            rw [← hrb]
            simp only [hri, if_true]
            show 0 ≤ r.quantity - 1
            rw [hreq]
            omega
          · rw [← hrb]; simp [hri]; exact hq r hr
      · have hres : borrow_book i st = (false, st) := by
          simp only [borrow_book, hf, if_neg hq0]
        rw [hres]; exact ⟨hnd, hq⟩
  | giveBack i =>
    show InvQty (return_book i st).2
    constructor
    · refine nodup_map_isbn_of_map st.books _ (fun b => ?_) hnd
      by_cases hb : (b.isbn == i) = true
      · simp [hb]
      · simp [hb]
    · intro b hb
      obtain ⟨r, hr, hrb⟩ := List.mem_map.mp hb
      by_cases hri : (r.isbn == i) = true
      · rw [← hrb]
        simp only [hri, if_true]
        show 0 ≤ r.quantity + 1
        have := hq r hr
        omega
      · rw [← hrb]; simp [hri]; exact hq r hr
  | remove i =>
    show InvQty (delete_book i st).2
    constructor
    · exact hnd.sublist ((List.filter_sublist st.books).map Book.isbn)
    · intro b hb
      exact hq b (List.mem_of_mem_filter hb)

theorem foldl_invQty (ops : List Op) : ∀ st : Store, InvQty st →
    (∀ op ∈ ops, addNonneg op = true) → InvQty (ops.foldl applyOp st) := by
  induction ops with
  | nil => intro st h _; exact h
  | cons op ops ih =>
    intro st h hops
    exact ih (applyOp st op) (applyOp_invQty st op h (hops op (List.mem_cons_self op ops)))
      (fun o ho => hops o (List.mem_cons_of_mem op ho))

/-- C2: starting from the freshly created store, any sequence of the seven
repository operations whose `add`s all carry non-negative quantities keeps
every stored quantity non-negative; `borrow_book`'s check before the
decrement is the only guard and it suffices. -/
theorem runOps_quantity_nonneg (ops : List Op)
    (h : ∀ op ∈ ops, addNonneg op = true) :
    ∀ b ∈ (runOps ops).books, 0 ≤ b.quantity :=
  (foldl_invQty ops create_database
    ⟨List.nodup_nil, fun b hb => absurd hb (List.not_mem_nil b)⟩ h).2

/-- A concrete operation sequence exercising add, borrow, return and delete. -/
def opsW : List Op :=
  [Op.add "T" "A" "P" "I1" 1990 2, Op.borrow "I1", Op.giveBack "I1", Op.remove "I1"]

/-- Witness for C2's theorem on the concrete sequence `opsW`. -/
theorem runOps_quantity_nonneg_witness :
    (∀ op ∈ opsW, addNonneg op = true) ∧
    ∀ b ∈ (runOps opsW).books, 0 ≤ b.quantity :=
  ⟨by decide, runOps_quantity_nonneg opsW (by decide)⟩

/-! ## C9: non-empty titles and authors -/

/-- Non-emptiness invariant claimed by the spec's data model for stored
books. -/
def InvNames (st : Store) : Prop := ∀ b ∈ st.books, b.title ≠ "" ∧ b.author ≠ ""

theorem namesNonempty_fields {t a : String}
    (h : (!(t == "") && !(a == "")) = true) : t ≠ "" ∧ a ≠ "" := by
  constructor <;> intro he <;> subst he <;> simp at h

theorem applyOp_invNames (st : Store) (op : Op) (h : InvNames st)
    (hop : namesNonempty op = true) : InvNames (applyOp st op) := by
  cases op with
  | add t a p i y q =>
    show InvNames (add_book t a p i y q st).2
    have hta : t ≠ "" ∧ a ≠ "" := namesNonempty_fields hop
    by_cases hdup : st.books.any (fun b => b.isbn == i) = true
    · have hres : add_book t a p i y q st = (false, st) := by simp [add_book, hdup]
      rw [hres]; exact h
    · have hdup' : st.books.any (fun b => b.isbn == i) = false := by
        cases hcase : st.books.any (fun b => b.isbn == i) with
        | false => rfl
        | true => exact absurd hcase hdup
      have hres : add_book t a p i y q st =
          (true, ⟨st.books ++ [⟨st.nextId, t, a, p, i, y, q⟩], st.nextId + 1⟩) := by
        simp [add_book, hdup']
      rw [hres]
      intro b hb
      rcases List.mem_append.mp hb with hb1 | hb1
      · exact h b hb1
      · have hbeq : b = ⟨st.nextId, t, a, p, i, y, q⟩ := by simpa using hb1
        subst hbeq
        exact hta
  | listAll => exact h
  | searchKw kw => exact h
  | updateInfo i t a p y =>
    show InvNames (update_book_info i t a p y st).2
    have hta : t ≠ "" ∧ a ≠ "" := namesNonempty_fields hop
    intro b hb
    obtain ⟨r, hr, hrb⟩ := List.mem_map.mp hb
    by_cases hri : (r.isbn == i) = true
    · rw [← hrb]; simp only [hri, if_true]; exact hta
    · rw [← hrb]; simp only [hri, Bool.false_eq_true, if_false]; exact h r hr
  | borrow i =>
    show InvNames (borrow_book i st).2
    rcases hf : st.books.find? (fun b => b.isbn == i) with _ | b0
    · have hres : borrow_book i st = (false, st) := by simp only [borrow_book, hf]
      rw [hres]; exact h
    · by_cases hq0 : 0 < b0.quantity
      · have hres : borrow_book i st =
            (true, ⟨st.books.map (fun r =>
                      if r.isbn == i then { r with quantity := r.quantity - 1 } else r),
                    st.nextId⟩) := by
          simp only [borrow_book, hf, if_pos hq0]
        rw [hres]
        intro b hb
        obtain ⟨r, hr, hrb⟩ := List.mem_map.mp hb
        by_cases hri : (r.isbn == i) = true
        · rw [← hrb]; simp only [hri, if_true]; exact h r hr
        · rw [← hrb]; simp only [hri, Bool.false_eq_true, if_false]; exact h r hr
      · have hres : borrow_book i st = (false, st) := by
          simp only [borrow_book, hf, if_neg hq0]
        rw [hres]; exact h
  | giveBack i =>
    show InvNames (return_book i st).2
    intro b hb
    obtain ⟨r, hr, hrb⟩ := List.mem_map.mp hb
    by_cases hri : (r.isbn == i) = true
    · rw [← hrb]; simp only [hri, if_true]; exact h r hr
    · rw [← hrb]; simp only [hri, Bool.false_eq_true, if_false]; exact h r hr
  | remove i =>
    show InvNames (delete_book i st).2
    intro b hb
    exact h b (List.mem_of_mem_filter hb)

theorem foldl_invNames (ops : List Op) : ∀ st : Store, InvNames st →
    (∀ op ∈ ops, namesNonempty op = true) → InvNames (ops.foldl applyOp st) := by
  induction ops with
  | nil => intro st h _; exact h
  | cons op ops ih =>
    intro st h hops
    exact ih (applyOp st op) (applyOp_invNames st op h (hops op (List.mem_cons_self op ops)))
      (fun o ho => hops o (List.mem_cons_of_mem op ho))

/-- C9 (amended): the store itself only enforces NOT NULL, not non-emptiness,
so the original invariant fails; what holds is sufficiency: whenever every
`add` and `update_fields` call of a run supplies non-empty title and author,
every book in the resulting state has non-empty title and author. -/
theorem runOps_names_nonempty (ops : List Op)
    (h : ∀ op ∈ ops, namesNonempty op = true) :
    ∀ b ∈ (runOps ops).books, b.title ≠ "" ∧ b.author ≠ "" :=
  foldl_invNames ops create_database
    (fun b hb => absurd hb (List.not_mem_nil b)) h

/-- A one-operation sequence inserting a book with empty title and author. -/
def opsE : List Op := [Op.add "" "" "Pub" "I9" 2000 1]

/-- C9 counterexample: the claim that every reachable state has non-empty
titles and authors is false: a single `add_book` call with empty title and
author succeeds (NOT NULL does not exclude the empty string) and the
resulting reachable store holds a book with empty title and author. -/
theorem runOps_empty_title_cex :
    (runOps opsE).books = [⟨1, "", "", "Pub", "I9", 2000, 1⟩] ∧
    ¬ (∀ b ∈ (runOps opsE).books, b.title ≠ "" ∧ b.author ≠ "") := by decide

/-- Witness for C9's amended theorem on the concrete sequence `opsW`. -/
theorem runOps_names_nonempty_witness :
    (∀ op ∈ opsW, namesNonempty op = true) ∧
    ∀ b ∈ (runOps opsW).books, b.title ≠ "" ∧ b.author ≠ "" :=
  ⟨by decide, runOps_names_nonempty opsW (by decide)⟩
